import Mathlib

/-!
Shallow embedding of the p2poolv2/stats ingestion scripts: the hashrate
normalization helper, the P2Pool snapshot schema, the pool-level hashrate
fallback chain, the batch partitioning and per-address upsert pipeline of
the user/worker ingestion script, and the top-N seeding variant.

JavaScript numbers that the scripts read from the snapshot are modelled as
rationals (`ℚ`; every finite IEEE double is a rational), optional fields as
`Option`, and JS objects keyed by address / worker name as association
lists in insertion order (`Object.entries` and `Object.values` enumerate
non-integer-like string keys in insertion order).
-/

/-- JS coercion `value || 0` on an optional numeric: `null`, `undefined`
and `0` are falsy and give `0`; any other finite number passes through. -/
def jsNum (value : Option ℚ) : ℚ :=
  match value with
  | none => 0
  | some q => if q = 0 then 0 else q

/-- JS coercion `value || 0` on an optional integer field. -/
def jsNumZ (value : Option ℤ) : ℤ :=
  match value with
  | none => 0
  | some n => if n = 0 then 0 else n

/-- JS `Math.round x`: the integer nearest to `x`, halves rounding toward
positive infinity, i.e. the floor of `x + 1 / 2`. -/
def mathRound (x : ℚ) : ℤ := ⌊x + 1 / 2⌋

/-- The constant `HASHRATE_FACTOR = Math.pow(2, 32)` of the scripts. -/
def HASHRATE_FACTOR : ℚ := 2 ^ 32

/-- The helper `scaleHashrate` shared by `updateUsersFromLogs.js` and the
seed scripts: `BigInt(Math.round(Number(value || 0) * HASHRATE_FACTOR))`,
an unbounded integer. -/
def scaleHashrate (value : Option ℚ) : ℤ :=
  mathRound (jsNum value * HASHRATE_FACTOR)

/-- The string form `BigInt(...).toString()` returned by `scaleHashrate`
in the pool-stats seed script. -/
def scaleHashrateStr (value : Option ℚ) : String :=
  toString (scaleHashrate value)

/-- The `computed_hash_rate` / `computed_hashrate` object of the snapshot;
all fields optional. -/
structure ComputedHashRate where
  hashrate_1m : Option ℚ := none
  hashrate_5m : Option ℚ := none
  hashrate_15m : Option ℚ := none
  hashrate_1hr : Option ℚ := none
  hashrate_6hr : Option ℚ := none
  hashrate_1d : Option ℚ := none
  hashrate_7d : Option ℚ := none
deriving DecidableEq

/-- A worker record of the snapshot (`P2PoolWorker`). -/
structure P2PoolWorker where
  computed_hash_rate : Option ComputedHashRate := none
  lastshare : Option ℤ := none
deriving DecidableEq

/-- A user record of the snapshot (`P2PoolUser`); `workers` is a JS object
keyed by worker name, kept in insertion order. -/
structure P2PoolUser where
  computed_hash_rate : Option ComputedHashRate := none
  workers : Option (List (String × P2PoolWorker)) := none
  authorised : Option ℤ := none
deriving DecidableEq

/-- The `computed_share_rate` object of the snapshot. -/
structure ComputedShareRate where
  shares_per_second_1m : Option ℚ := none
  shares_per_second_5m : Option ℚ := none
  shares_per_second_15m : Option ℚ := none
  shares_per_second_1h : Option ℚ := none
deriving DecidableEq

/-- The top-level snapshot document (`P2PoolJson`). -/
structure P2PoolJson where
  start_time : Option ℤ := none
  lastupdate : Option ℤ := none
  num_users : Option ℤ := none
  num_workers : Option ℤ := none
  num_idle_users : Option ℤ := none
  accepted : Option ℤ := none
  rejected : Option ℤ := none
  bestshare : Option ℤ := none
  difficulty : Option ℤ := none
  users : Option (List (String × P2PoolUser)) := none
  computed_hashrate : Option ComputedHashRate := none
  computed_share_rate : Option ComputedShareRate := none
deriving DecidableEq

/-- JS `Object.entries(m || ...)` with the empty-object default: the
association list of an optional record. -/
def jsEntries {α : Type} (m : Option (List (String × α))) : List (String × α) :=
  m.getD []

/-- JS `Object.values(m || ...)` with the empty-object default. -/
def jsValues {α : Type} (m : Option (List (String × α))) : List α :=
  (jsEntries m).map Prod.snd

/-- JS `String(v ?? 0)` on an optional integer field. -/
def jsStringD (v : Option ℤ) : String :=
  match v with
  | none => "0"
  | some n => toString n

/-- JS `String(v ?? 0)` on an optional rational field. -/
def jsStringQ (v : Option ℚ) : String :=
  match v with
  | none => "0"
  | some q => toString q

/-- The CKPool-compatible row produced by the pool seed script
(`PoolStatsData`): numeric counters plus base-10 string hashrates. -/
structure PoolStatsData where
  runtime : ℤ
  users : ℤ
  workers : ℤ
  idle : ℤ
  disconnected : ℤ
  hashrate1m : String
  hashrate5m : String
  hashrate15m : String
  hashrate1hr : String
  hashrate6hr : String
  hashrate1d : String
  hashrate7d : String
  diff : String
  accepted : String
  rejected : String
  bestshare : String
  SPS1m : String
  SPS5m : String
  SPS15m : String
  SPS1h : String
  timestamp : ℤ
deriving DecidableEq

/-- `p2poolToCkpool` of the pool seed script: resolve the pool-level
hashrate fields (top-level rollup, else first user's aggregate, else the
first user's first worker's aggregate, else empty) and convert to the
CKPool row. `now` stands for `Math.floor(Date.now() / 1000)`, used only
when the snapshot lacks `lastupdate`. -/
def p2poolToCkpool (now : ℤ) (p2pool : P2PoolJson) : PoolStatsData :=
  let userList := jsValues p2pool.users
  let hf0 := p2pool.computed_hashrate
  let hf1 :=
    match hf0, userList with
    | none, u :: _ => u.computed_hash_rate
    | h, _ => h
  let hf2 :=
    match hf1, userList with
    | none, u :: _ =>
      (match jsValues u.workers with
       | w :: _ => w.computed_hash_rate
       | [] => none)
    | h, _ => h
  let hashrateFields := hf2.getD {}
  { runtime := p2pool.start_time.getD 0
    users := p2pool.num_users.getD 0
    workers := p2pool.num_workers.getD 0
    idle := p2pool.num_idle_users.getD 0
    disconnected := 0
    hashrate1m := scaleHashrateStr hashrateFields.hashrate_1m
    hashrate5m := scaleHashrateStr hashrateFields.hashrate_5m
    hashrate15m := scaleHashrateStr hashrateFields.hashrate_15m
    hashrate1hr := scaleHashrateStr hashrateFields.hashrate_1hr
    hashrate6hr := scaleHashrateStr hashrateFields.hashrate_6hr
    hashrate1d := scaleHashrateStr hashrateFields.hashrate_1d
    hashrate7d := scaleHashrateStr hashrateFields.hashrate_7d
    diff := jsStringD p2pool.difficulty
    accepted := jsStringD p2pool.accepted
    rejected := jsStringD p2pool.rejected
    bestshare := jsStringD p2pool.bestshare
    SPS1m := jsStringQ (p2pool.computed_share_rate.bind ComputedShareRate.shares_per_second_1m)
    SPS5m := jsStringQ (p2pool.computed_share_rate.bind ComputedShareRate.shares_per_second_5m)
    SPS15m := jsStringQ (p2pool.computed_share_rate.bind ComputedShareRate.shares_per_second_15m)
    SPS1h := jsStringQ (p2pool.computed_share_rate.bind ComputedShareRate.shares_per_second_1h)
    timestamp := p2pool.lastupdate.getD now * 1000 }

/-- The spec's wording of the pool-level fallback chain, written
independently of the script's sequential reassignments: prefer the
document's own computed rollup; else the first user's aggregate; else the
first user's first worker's aggregate; else all-zero (empty fields). -/
def poolFallbackSpec (p : P2PoolJson) : ComputedHashRate :=
  match p.computed_hashrate with
  | some h => h
  | none =>
    match jsValues p.users with
    | [] => {}
    | u :: _ =>
      match u.computed_hash_rate with
      | some h => h
      | none =>
        match jsValues u.workers with
        | [] => {}
        | w :: _ =>
          match w.computed_hash_rate with
          | some h => h
          | none => {}

/-- The seven pool-level hashrate columns of a CKPool row, in order. -/
def poolHashrates (d : PoolStatsData) : List String :=
  [d.hashrate1m, d.hashrate5m, d.hashrate15m, d.hashrate1hr, d.hashrate6hr,
   d.hashrate1d, d.hashrate7d]

/-- The seven fields of a `computed_hash_rate` object scaled by `2 ^ 32`
and serialized, in column order. -/
def chrScaled (c : ComputedHashRate) : List String :=
  [scaleHashrateStr c.hashrate_1m, scaleHashrateStr c.hashrate_5m,
   scaleHashrateStr c.hashrate_15m, scaleHashrateStr c.hashrate_1hr,
   scaleHashrateStr c.hashrate_6hr, scaleHashrateStr c.hashrate_1d,
   scaleHashrateStr c.hashrate_7d]

/-- Concrete worker rollup used by the C6 witness. -/
def exWorkerCHR : ComputedHashRate := { hashrate_1d := some 2 }

/-- Concrete worker used by the C6 witness. -/
def exWorker : P2PoolWorker := { computed_hash_rate := some exWorkerCHR }

/-- Concrete user (no aggregate of its own, one worker) used by the C6
witness. -/
def exUser : P2PoolUser := { workers := some [(("rig1"), exWorker)] }

/-- Concrete snapshot with no top-level rollup used by the C6 witness. -/
def exJsonC6 : P2PoolJson := { users := some [(("addr1"), exUser)] }

/-- The constant `BATCH_SIZE = 10` of `updateUsersFromLogs.js`. -/
def BATCH_SIZE : ℕ := 10

/-- Fueled form of the batch loop `for (i = 0; i < n; i += BATCH_SIZE)`
with `batch = entries.slice(i, i + BATCH_SIZE)`: one slice of at most
`BATCH_SIZE` entries is produced per iteration. The fuel only bounds the
iteration count; `chunksOf10` supplies fuel equal to the list length,
which the lemmas show always suffices. -/
def chunksGo {α : Type} : ℕ → List α → List (List α)
  | 0, _ => []
  | _ + 1, [] => []
  | n + 1, x :: xs =>
    ((x :: xs).take BATCH_SIZE) :: chunksGo n ((x :: xs).drop BATCH_SIZE)

/-- The batch partition of the user entries, as computed by the loop of
`updateUsersFromJson`. -/
def chunksOf10 {α : Type} (l : List α) : List (List α) :=
  chunksGo l.length l

/-- The ranking key of the seed script's top-N selection:
`user.computed_hash_rate?.hashrate_1d ?? 0`. -/
def userKey1d (u : P2PoolUser) : ℚ :=
  (u.computed_hash_rate.bind ComputedHashRate.hashrate_1d).getD 0

/-- Stable descending insertion: the new element is placed before the
first element whose key is less than or equal to its own. -/
def insertDesc (x : String × ℚ) : List (String × ℚ) → List (String × ℚ)
  | [] => [x]
  | y :: ys => if y.2 ≤ x.2 then x :: y :: ys else y :: insertDesc x ys

/-- The JS `Array.prototype.sort` call
`.sort((a, b) => b.hashrate - a.hashrate)` of the seed script: a stable
sort, descending by hashrate. JS sort is stable and, for a consistent
comparator, its output is the unique stable descending permutation, which
stable insertion computes. -/
def sortByHashrateDesc (l : List (String × ℚ)) : List (String × ℚ) :=
  l.foldr insertDesc []

/-- Descending order on (address, hashrate) pairs by hashrate. -/
def hrGE (a b : String × ℚ) : Prop := b.2 ≤ a.2

/-- `Object.entries(json.users || ...)` of the seed script. -/
def usersEntries (p : P2PoolJson) : List (String × P2PoolUser) :=
  jsEntries p.users

/-- The seed script's mapped and sorted user list:
`.map(([address, user]) => (address, hashrate)).sort(...)`. -/
def rankedUsers (p : P2PoolJson) : List (String × ℚ) :=
  sortByHashrateDesc ((usersEntries p).map (fun q => (q.1, userKey1d q.2)))

/-- The seed script's `.slice(0, 10)` after sorting: the top-10 users. -/
def topUsers (p : P2PoolJson) : List (String × ℚ) :=
  (rankedUsers p).take 10

/-- The addresses that receive a `User` and a `UserStats` write in the
seed script's loop: exactly the members of `topUsers`. -/
def seedTopWrites (p : P2PoolJson) : List String :=
  (topUsers p).map Prod.fst

/-- A `User` row as touched by `updateUsersFromLogs.js`. -/
structure UserRow where
  address : String
  authorised : String
  isActive : Bool
deriving DecidableEq

/-- The user upsert of `updateUsersFromJson`: create with
`isActive: true` when the address is new, otherwise set
`dbUser.isActive = true` and refresh `authorised`. -/
def upsertUser (existing : Option UserRow) (address : String) (user : P2PoolUser) : UserRow :=
  match existing with
  | none =>
    { address := address
      authorised := toString (jsNumZ user.authorised)
      isActive := true }
  | some dbUser =>
    { dbUser with
      isActive := true
      authorised := toString (jsNumZ user.authorised) }

/-- A `User` row as created by the top-N seed script, which assigns only
the address: the active flag is left unassigned. -/
structure SeedUserRow where
  address : String
  isActive : Option Bool
deriving DecidableEq

/-- `userRepo.create(\x7b address \x7d)` of the seed script. -/
def seedCreateUser (address : String) : SeedUserRow :=
  { address := address, isActive := none }

/-- `w.lastshare || 0` of the user-stats insert. -/
def workerLastshare (w : P2PoolWorker) : ℤ := jsNumZ w.lastshare

/-- The `lastShare` field of the user-stats insert:
`String(user.workers ? Math.max(...values.map(w => w.lastshare || 0)) : 0)`.
`Math.max` of no arguments is negative infinity, which `String` prints as
`-Infinity`; of a nonempty argument list it is the left fold of `max`. -/
def lastShareString (workers : Option (List (String × P2PoolWorker))) : String :=
  match workers with
  | none => "0"
  | some ws =>
    match ws.map (fun q => workerLastshare q.2) with
    | [] => "-Infinity"
    | v :: vs => toString (vs.foldl max v)

/-- The relational store reduced to row identities: user rows, user-stats
rows (one per insert, identified by address), worker rows and worker-stats
rows (identified by address and worker name). -/
structure DBState where
  users : List String
  userStats : List String
  workers : List (String × String)
  workerStats : List (String × String)
deriving DecidableEq

/-- The store before a run. -/
def emptyDB : DBState :=
  { users := [], userStats := [], workers := [], workerStats := [] }

/-- One address's full unit of work applied to the store, following the
transaction body of `updateUsersFromJson`: user upsert (find-or-create by
address), one user-stats insert, then per worker a worker upsert
(find-or-create by address and name) and one worker-stats insert. -/
def applyUnit (st : DBState) (address : String) (user : P2PoolUser) : DBState :=
  let names := (jsEntries user.workers).map Prod.fst
  { users := if address ∈ st.users then st.users else st.users ++ [address]
    userStats := st.userStats ++ [address]
    workers := names.foldl
      (fun ws n => if (address, n) ∈ ws then ws else ws ++ [(address, n)]) st.workers
    workerStats := st.workerStats ++ names.map (fun n => (address, n)) }

/-- Modelled from the spec: the transactional wrapper `db.transaction` used
by `updateUsersFromJson` — its implementation (the repository's `lib/db`
datasource and the storage backend) is not under `src/`. Per the spec,
each address's writes execute inside one atomic transaction: all commit or
none do. `fails` is the environment's oracle for which addresses'
transactions fail (constraint violation, timeout); a failed transaction
leaves the store unchanged and reports the failed address. -/
def processAddress (fails : String → Bool) (st : DBState) (entry : String × P2PoolUser) :
    DBState × Option String :=
  if fails entry.1 then (st, some entry.1)
  else (applyUnit st entry.1 entry.2, none)

/-- One batch under `Promise.all`: every member task runs to completion
(a rejected sibling does not cancel tasks already in flight); concurrency
over disjoint addresses is modelled as left-to-right execution, and the
batch's failed addresses are collected. -/
def processBatch (fails : String → Bool) (st : DBState) :
    List (String × P2PoolUser) → DBState × List String
  | [] => (st, [])
  | e :: rest =>
    let r := processAddress fails st e
    let rr := processBatch fails r.1 rest
    (rr.1, r.2.toList ++ rr.2)

/-- The batch loop of `updateUsersFromJson`: batches run sequentially, and
`await Promise.all(...)` throws as soon as the current batch had a failed
member; no catch intercepts the rejection before the function's `finally`,
so the remaining batches are skipped. Returns the final store, the failed
addresses, and whether the loop ran to completion. -/
def runChunks (fails : String → Bool) (st : DBState) :
    List (List (String × P2PoolUser)) → DBState × List String × Bool
  | [] => (st, [], true)
  | b :: bs =>
    let r := processBatch fails st b
    if r.2.isEmpty then runChunks fails r.1 bs
    else (r.1, r.2, false)

/-- End-to-end run of `updateUsersFromJson` over a snapshot, from an empty
store. -/
def runUpdate (fails : String → Bool) (p : P2PoolJson) : DBState × List String × Bool :=
  runChunks fails emptyDB (chunksOf10 (jsEntries p.users))

/-- The rows of the store that belong to one address: its user-row count,
user-stats count, worker rows and worker-stats rows. -/
def rowsFor (st : DBState) (a : String) :
    ℕ × ℕ × List (String × String) × List (String × String) :=
  (st.users.count a, st.userStats.count a,
   st.workers.filter (fun q => q.1 == a), st.workerStats.filter (fun q => q.1 == a))

/-- The classes of fatal error of a run. -/
inductive RunError where
  | snapshotUnavailable
  | snapshotMalformed
  | connectionFailure
deriving DecidableEq

/-- The body of `seed()` up to its first failure point: reading and
parsing the snapshot (which may throw), then acquiring the database handle
(which may throw when the backend is unreachable). -/
def seedBody (readRes : Except RunError P2PoolJson) (dbOk : Bool) : Except RunError Unit :=
  match readRes with
  | Except.error e => Except.error e
  | Except.ok _ => if dbOk then Except.ok () else Except.error RunError.connectionFailure

/-- `seed()` wraps its whole body in try/catch/finally: every error is
caught and logged inside `seed`, which then returns normally. -/
def seedCatch (readRes : Except RunError P2PoolJson) (dbOk : Bool) : Except RunError Unit :=
  match seedBody readRes dbOk with
  | Except.error _ => Except.ok ()
  | Except.ok _ => Except.ok ()

/-- The IIFE at the bottom of the seed script: it calls `process.exit(1)`
only when `seed()` itself throws, and otherwise lets the process exit with
status `0`. (`updateUsersFromLogs.js` likewise ends in
`updateUsersFromJson().catch(console.error)`, which swallows the error.) -/
def seedExitCode (readRes : Except RunError P2PoolJson) (dbOk : Bool) : ℕ :=
  match seedCatch readRes dbOk with
  | Except.ok _ => 0
  | Except.error _ => 1

/-- Concrete snapshot with 11 users (addresses `a0` … `a10`, 1-day
hashrates `0` … `10`), used by the C4/C5/C7 evidence. -/
def exJson11 : P2PoolJson :=
  { users := some ((List.range 11).map (fun i =>
      (("a") ++ toString i,
       ({ computed_hash_rate := some { hashrate_1d := some (i : ℚ) } } : P2PoolUser)))) }

/-- Failure oracle that fails exactly the transaction of address `a0`,
a member of the first batch of `exJson11`. -/
def failsFirst : String → Bool := fun s => s == ("a0")

/-- Store with one committed sibling address, used by the C3 witness. -/
def exDB : DBState := applyUnit emptyDB ("a2") {}

/-- Failure oracle failing exactly address `a1`, used by the C3 witness. -/
def failsA1 : String → Bool := fun s => s == ("a1")

/-- Concrete worker map used by the C10 witness: one worker with
`lastshare = 7`, one with the field absent. -/
def exWorkersC10 : List (String × P2PoolWorker) :=
  [(("w1"), { lastshare := some 7 }), (("w2"), {})]

/-- C1: for every non-negative rational input `r`, `scaleHashrate` returns
exactly `round (r * 2 ^ 32)` as an unbounded integer, and an absent
(`null` / `undefined`) input returns `0`. -/
theorem c1_scale_normalization :
    (∀ r : ℚ, 0 ≤ r → scaleHashrate (some r) = round (r * 2 ^ 32)) ∧
    scaleHashrate none = 0 := by
  constructor
  · intro r _
    by_cases h : r = 0 <;>
      simp [scaleHashrate, jsNum, mathRound, HASHRATE_FACTOR, round_eq, h]
  · simp [scaleHashrate, jsNum, mathRound, HASHRATE_FACTOR]
    norm_num

/-- Witness for C1 at the concrete input `5 / 2`. -/
theorem c1_scale_normalization_witness :
    0 ≤ (5 / 2 : ℚ) ∧ scaleHashrate (some (5 / 2)) = round ((5 / 2 : ℚ) * 2 ^ 32) :=
  ⟨by norm_num, c1_scale_normalization.1 (5 / 2) (by norm_num)⟩

/-- C2 counterexample: the negative input `-1` is not mapped to `0`; it is
scaled to `-2 ^ 32` because `value || 0` lets every nonzero number through. -/
theorem c2_negative_not_clamped : scaleHashrate (some (-1)) ≠ 0 := by
  have h : scaleHashrate (some (-1)) = -(2 ^ 32) := by
    simp [scaleHashrate, jsNum, mathRound, HASHRATE_FACTOR]
    norm_num
  rw [h]
  norm_num

/-- C2 as amended: on every finite numeric or absent input `scaleHashrate`
is total (never raises), deterministic and side-effect-free, and equal to
`round (input * 2 ^ 32)` with `null` / `undefined` / `NaN` / `0` treated as
`0`; negative inputs are scaled like positive ones, producing negative
outputs, not clamped to `0`. -/
theorem c2_amended_no_clamp :
    (∀ v : Option ℚ, scaleHashrate v = round (jsNum v * HASHRATE_FACTOR)) ∧
    scaleHashrate none = 0 ∧
    (∀ r : ℚ, r ≤ -1 → scaleHashrate (some r) < 0) := by
  refine ⟨?_, ?_, ?_⟩
  · intro v
    simp [scaleHashrate, mathRound, round_eq]
  · simp [scaleHashrate, jsNum, mathRound, HASHRATE_FACTOR]
    norm_num
  · intro r hr
    have hr0 : r ≠ 0 := by linarith
    have hmul : r * 2 ^ 32 ≤ (-1) * 2 ^ 32 := by
      apply mul_le_mul_of_nonneg_right hr
      positivity
    simp only [scaleHashrate, jsNum, mathRound, HASHRATE_FACTOR, if_neg hr0]
    have hx : (r * 2 ^ 32 + 1 / 2 : ℚ) < 0 := by norm_num at hmul ⊢; linarith
    have hlt : ⌊(r * 2 ^ 32 + 1 / 2 : ℚ)⌋ < (0 : ℤ) := by
      rw [Int.floor_lt]
      exact_mod_cast hx
    exact hlt

/-- Witness for C2's amended statement at the concrete input `-1`. -/
theorem c2_amended_no_clamp_witness :
    ((-1 : ℚ) ≤ -1) ∧ scaleHashrate (some (-1)) < 0 :=
  ⟨le_refl _, c2_amended_no_clamp.2.2 (-1) (le_refl _)⟩

/-- C6: the pool-level hashrate columns follow the fallback chain (own
rollup, else first user's aggregate, else first user's first worker's
aggregate, else all-zero), and in particular, when the snapshot has no
top-level rollup and the chain reaches the first user's first worker's
rollup, the recorded pool hashrates equal that rollup scaled by `2 ^ 32`. -/
theorem c6_pool_fallback_chain :
    (∀ (now : ℤ) (p : P2PoolJson),
      poolHashrates (p2poolToCkpool now p) = chrScaled (poolFallbackSpec p)) ∧
    (∀ (now : ℤ) (p : P2PoolJson) (u : P2PoolUser) (rest : List P2PoolUser)
       (w : P2PoolWorker) (wrest : List P2PoolWorker) (h : ComputedHashRate),
      p.computed_hashrate = none →
      jsValues p.users = u :: rest →
      u.computed_hash_rate = none →
      jsValues u.workers = w :: wrest →
      w.computed_hash_rate = some h →
      poolHashrates (p2poolToCkpool now p) = chrScaled h) := by
  have main : ∀ (now : ℤ) (p : P2PoolJson),
      poolHashrates (p2poolToCkpool now p) = chrScaled (poolFallbackSpec p) := by
    intro now p
    cases h0 : p.computed_hashrate with
    | some h => simp [p2poolToCkpool, poolFallbackSpec, poolHashrates, chrScaled, h0]
    | none =>
      cases h1 : jsValues p.users with
      | nil => simp [p2poolToCkpool, poolFallbackSpec, poolHashrates, chrScaled, h0, h1]
      | cons u rest =>
        cases h2 : u.computed_hash_rate with
        | some h =>
          simp [p2poolToCkpool, poolFallbackSpec, poolHashrates, chrScaled, h0, h1, h2]
        | none =>
          cases h3 : jsValues u.workers with
          | nil =>
            simp [p2poolToCkpool, poolFallbackSpec, poolHashrates, chrScaled, h0, h1, h2, h3]
          | cons w wrest =>
            cases h4 : w.computed_hash_rate with
            | some h =>
              simp [p2poolToCkpool, poolFallbackSpec, poolHashrates, chrScaled,
                h0, h1, h2, h3, h4]
            | none =>
              simp [p2poolToCkpool, poolFallbackSpec, poolHashrates, chrScaled,
                h0, h1, h2, h3, h4]
  refine ⟨main, ?_⟩
  intro now p u rest w wrest h h0 h1 h2 h3 h4
  rw [main now p]
  simp [poolFallbackSpec, h0, h1, h2, h3, h4]

/-- Witness for C6 at a concrete snapshot whose only hashrate information
is the first user's first worker's 1-day rollup. -/
theorem c6_pool_fallback_chain_witness :
    poolHashrates (p2poolToCkpool 0 exJsonC6) = chrScaled exWorkerCHR :=
  c6_pool_fallback_chain.2 0 exJsonC6 exUser [] exWorker [] exWorkerCHR
    rfl rfl rfl rfl rfl

/-- The batch loop produces nothing from an empty entry list. -/
theorem chunksGo_nil {α : Type} (n : ℕ) : chunksGo (α := α) n [] = [] := by
  cases n <;> rfl

/-- Concatenating the batches gives back the entry list, in order. -/
theorem chunksGo_join {α : Type} :
    ∀ (n : ℕ) (l : List α), l.length ≤ n → (chunksGo n l).flatten = l := by
  intro n
  induction n with
  | zero =>
    intro l h
    have hl : l = [] := List.eq_nil_of_length_eq_zero (Nat.le_zero.mp h)
    rw [hl]
    simp [chunksGo, BATCH_SIZE]
  | succ n ih =>
    intro l h
    cases l with
    | nil => simp [chunksGo, BATCH_SIZE]
    | cons x xs =>
      have hd : ((x :: xs).drop BATCH_SIZE).length ≤ n := by
        simp only [List.length_drop, List.length_cons, BATCH_SIZE] at h ⊢
        omega
      simp only [chunksGo, List.flatten_cons]
      rw [ih _ hd]
      exact List.take_append_drop _ _

/-- The number of batches is the length divided by `BATCH_SIZE`, rounded
up. -/
theorem chunksGo_length {α : Type} :
    ∀ (n : ℕ) (l : List α), l.length ≤ n →
      (chunksGo n l).length = (l.length + BATCH_SIZE - 1) / BATCH_SIZE := by
  intro n
  induction n with
  | zero =>
    intro l h
    have hl : l = [] := List.eq_nil_of_length_eq_zero (Nat.le_zero.mp h)
    rw [hl]
    simp [chunksGo, BATCH_SIZE]
  | succ n ih =>
    intro l h
    cases l with
    | nil => simp [chunksGo, BATCH_SIZE]
    | cons x xs =>
      have hd : ((x :: xs).drop BATCH_SIZE).length ≤ n := by
        simp only [List.length_drop, List.length_cons, BATCH_SIZE] at h ⊢
        omega
      simp only [chunksGo, List.length_cons]
      rw [ih _ hd]
      simp only [List.length_drop, List.length_cons, BATCH_SIZE]
      omega

/-- Every batch is nonempty and holds at most `BATCH_SIZE` entries. -/
theorem chunksGo_mem {α : Type} :
    ∀ (n : ℕ) (l : List α) (b : List α), b ∈ chunksGo n l →
      b ≠ [] ∧ b.length ≤ BATCH_SIZE := by
  intro n
  induction n with
  | zero => intro l b hb; simp [chunksGo] at hb
  | succ n ih =>
    intro l b hb
    cases l with
    | nil => simp [chunksGo] at hb
    | cons x xs =>
      simp only [chunksGo, List.mem_cons] at hb
      rcases hb with hb | hb
      · subst hb
        constructor
        · simp [BATCH_SIZE, List.take]
        · simp [List.length_take]
      · exact ih _ _ hb

/-- Every batch except possibly the last holds exactly `BATCH_SIZE`
entries. -/
theorem chunksGo_dropLast {α : Type} :
    ∀ (n : ℕ) (l : List α) (b : List α), b ∈ (chunksGo n l).dropLast →
      b.length = BATCH_SIZE := by
  intro n
  induction n with
  | zero => intro l b hb; simp [chunksGo] at hb
  | succ n ih =>
    intro l b hb
    cases l with
    | nil => simp [chunksGo] at hb
    | cons x xs =>
      simp only [chunksGo] at hb
      cases hr : chunksGo n ((x :: xs).drop BATCH_SIZE) with
      | nil => rw [hr] at hb; simp at hb
      | cons r rs =>
        rw [hr] at hb
        rw [List.dropLast_cons₂] at hb
        rcases List.mem_cons.mp hb with hb1 | hb1
        · subst hb1
          have hdrop : (x :: xs).drop BATCH_SIZE ≠ [] := by
            intro hcon
            rw [hcon, chunksGo_nil] at hr
            exact List.noConfusion hr
          have hlen : BATCH_SIZE ≤ (x :: xs).length := by
            by_contra hcon
            push_neg at hcon
            have : (x :: xs).drop BATCH_SIZE = [] :=
              List.drop_eq_nil_of_le (Nat.le_of_lt hcon)
            exact hdrop this
          simp only [List.length_cons] at hlen
          simp only [List.length_take, List.length_cons]
          omega
        · exact ih _ _ (hr ▸ hb1)

/-- C5: the coordinator partitions the snapshot's user entries into
consecutive groups of `BATCH_SIZE = 10`, preserving iteration order: the
concatenation of all batches is exactly the entry list (every address once,
no omissions, no duplicates), the batch count is the length divided by 10
rounded up, every batch is nonempty with at most 10 entries, and every
batch except possibly the last has exactly 10. -/
theorem c5_partition_coverage (l : List (String × P2PoolUser)) :
    (chunksOf10 l).flatten = l ∧
    (chunksOf10 l).length = (l.length + BATCH_SIZE - 1) / BATCH_SIZE ∧
    (∀ b ∈ chunksOf10 l, b ≠ [] ∧ b.length ≤ BATCH_SIZE) ∧
    (∀ b ∈ (chunksOf10 l).dropLast, b.length = BATCH_SIZE) :=
  ⟨chunksGo_join l.length l (le_refl _),
   chunksGo_length l.length l (le_refl _),
   fun b hb => chunksGo_mem l.length l b hb,
   fun b hb => chunksGo_dropLast l.length l b hb⟩

/-- Witness for C5 on the concrete 11-user snapshot: the two batches
concatenate back to the entry list, and the first batch (a member of the
partition) is nonempty with at most 10 entries. -/
theorem c5_partition_coverage_witness :
    (chunksOf10 (usersEntries exJson11)).flatten = usersEntries exJson11 ∧
    ((usersEntries exJson11).take 10 ≠ [] ∧
      ((usersEntries exJson11).take 10).length ≤ BATCH_SIZE) :=
  ⟨(c5_partition_coverage (usersEntries exJson11)).1,
   (c5_partition_coverage (usersEntries exJson11)).2.2.1
     ((usersEntries exJson11).take 10) (by decide)⟩

/-- Inserting an element permutes consing it. -/
theorem insertDesc_perm (x : String × ℚ) :
    ∀ l : List (String × ℚ), List.Perm (insertDesc x l) (x :: l) := by
  intro l
  induction l with
  | nil => exact List.Perm.refl _
  | cons y ys ih =>
    by_cases h : y.2 ≤ x.2
    · simp [insertDesc, h]
    · simp only [insertDesc, if_neg h]
      exact (List.Perm.cons y ih).trans (List.Perm.swap x y ys)

/-- The stable descending sort permutes its input. -/
theorem sortByHashrateDesc_perm (l : List (String × ℚ)) :
    List.Perm (sortByHashrateDesc l) l := by
  induction l with
  | nil => exact List.Perm.refl _
  | cons x xs ih =>
    have : sortByHashrateDesc (x :: xs) = insertDesc x (sortByHashrateDesc xs) := rfl
    rw [this]
    exact (insertDesc_perm x (sortByHashrateDesc xs)).trans (List.Perm.cons x ih)

/-- Inserting into a descending list keeps it descending. -/
theorem insertDesc_pairwise (x : String × ℚ) :
    ∀ l : List (String × ℚ), List.Pairwise hrGE l →
      List.Pairwise hrGE (insertDesc x l) := by
  intro l
  induction l with
  | nil => intro _; simp [insertDesc, hrGE]
  | cons y ys ih =>
    intro hp
    rcases List.pairwise_cons.mp hp with ⟨hy, hys⟩
    by_cases h : y.2 ≤ x.2
    · simp only [insertDesc, if_pos h]
      refine List.pairwise_cons.mpr ⟨?_, hp⟩
      intro z hz
      rcases List.mem_cons.mp hz with hz1 | hz1
      · subst hz1; exact h
      · exact le_trans (hy z hz1) h
    · simp only [insertDesc, if_neg h]
      refine List.pairwise_cons.mpr ⟨?_, ih hys⟩
      intro z hz
      rcases List.mem_cons.mp ((insertDesc_perm x ys).mem_iff.mp hz) with hz1 | hz1
      · subst hz1
        exact le_of_lt (lt_of_not_le h)
      · exact hy z hz1

/-- The stable descending sort is descending. -/
theorem sortByHashrateDesc_pairwise (l : List (String × ℚ)) :
    List.Pairwise hrGE (sortByHashrateDesc l) := by
  induction l with
  | nil => simp [sortByHashrateDesc]
  | cons x xs ih => exact insertDesc_pairwise x (sortByHashrateDesc xs) ih

/-- Insertion places the new element before every element of equal key,
so filtering by any key value commutes with insertion. -/
theorem insertDesc_filter (x : String × ℚ) (k : ℚ) :
    ∀ l : List (String × ℚ),
      (insertDesc x l).filter (fun q => decide (q.2 = k)) =
        if x.2 = k then x :: l.filter (fun q => decide (q.2 = k))
        else l.filter (fun q => decide (q.2 = k)) := by
  intro l
  induction l with
  | nil =>
    by_cases hx : x.2 = k <;> simp [insertDesc, List.filter, hx]
  | cons y ys ih =>
    by_cases h : y.2 ≤ x.2
    · simp only [insertDesc, if_pos h, List.filter_cons]
      by_cases hx : x.2 = k <;> simp [hx]
    · simp only [insertDesc, if_neg h, List.filter_cons]
      by_cases hx : x.2 = k
      · have hy : ¬(y.2 = k) := fun hc => h (le_of_eq (hc.trans hx.symm))
        simp [hy, ih, hx]
      · by_cases hy : y.2 = k <;> simp [hy, ih, hx]

/-- Stability of the sort: for every key value, the elements carrying that
key appear in the output in their original input order. -/
theorem sortByHashrateDesc_filter (k : ℚ) :
    ∀ l : List (String × ℚ),
      (sortByHashrateDesc l).filter (fun q => decide (q.2 = k)) =
        l.filter (fun q => decide (q.2 = k)) := by
  intro l
  induction l with
  | nil => rfl
  | cons x xs ih =>
    have hstep : sortByHashrateDesc (x :: xs) = insertDesc x (sortByHashrateDesc xs) := rfl
    rw [hstep, insertDesc_filter]
    by_cases hx : x.2 = k <;> simp [List.filter, hx, ih]

/-- C7: on a snapshot with more than 10 users, the seed script's top-N
selection takes exactly 10 users; the ranked list is the user list sorted
descending by the 1-day hashrate key, it is a permutation of the mapped
user list, every selected user's key is at least every rejected user's
key, ties keep their original snapshot order (filtering by any key value
preserves input order), and exactly the selected users receive the `User`
and `UserStats` writes. -/
theorem c7_top_n_selection (p : P2PoolJson)
    (h : 10 < (usersEntries p).length) :
    (topUsers p).length = 10 ∧
    List.Pairwise hrGE (rankedUsers p) ∧
    List.Perm (rankedUsers p) ((usersEntries p).map (fun q => (q.1, userKey1d q.2))) ∧
    (∀ x ∈ topUsers p, ∀ y ∈ (rankedUsers p).drop 10, y.2 ≤ x.2) ∧
    (∀ k : ℚ, (rankedUsers p).filter (fun q => decide (q.2 = k)) =
      ((usersEntries p).map (fun q => (q.1, userKey1d q.2))).filter
        (fun q => decide (q.2 = k))) ∧
    seedTopWrites p = (topUsers p).map Prod.fst := by
  have hperm : List.Perm (rankedUsers p) ((usersEntries p).map (fun q => (q.1, userKey1d q.2))) :=
    sortByHashrateDesc_perm _
  have hlen : (rankedUsers p).length = (usersEntries p).length := by
    rw [hperm.length_eq, List.length_map]
  have hpw : List.Pairwise hrGE (rankedUsers p) := sortByHashrateDesc_pairwise _
  refine ⟨?_, hpw, hperm, ?_, fun k => sortByHashrateDesc_filter k _, rfl⟩
  · simp only [topUsers, List.length_take, hlen]
    omega
  · have hsplit : List.Pairwise hrGE ((rankedUsers p).take 10 ++ (rankedUsers p).drop 10) := by
      rw [List.take_append_drop]
      exact hpw
    exact fun x hx y hy => (List.pairwise_append.mp hsplit).2.2 x hx y hy

/-- Witness for C7 on the concrete snapshot with 11 users. -/
theorem c7_top_n_selection_witness :
    10 < (usersEntries exJson11).length ∧ (topUsers exJson11).length = 10 :=
  ⟨by decide, (c7_top_n_selection exJson11 (by decide)).1⟩

/-- C9: every `User` row written or updated by the pipeline has its active
flag assigned only the value `true`: the user upsert of
`updateUsersFromJson` sets `isActive` to `true` on both the create path
and the update path, and the top-N seed script's user creation leaves the
flag unassigned — no operation of this core sets it to `false`. -/
theorem c9_isActive_always_true :
    (∀ (existing : Option UserRow) (address : String) (user : P2PoolUser),
      (upsertUser existing address user).isActive = true) ∧
    (∀ address : String, (seedCreateUser address).isActive ≠ some false) := by
  constructor
  · intro existing address user
    cases existing <;> rfl
  · intro address
    simp [seedCreateUser]

/-- Witness for C9 at concrete rows: a fresh address, an existing row with
the flag cleared, and the seed script's creation. -/
theorem c9_isActive_always_true_witness :
    (upsertUser none ("addr1") {}).isActive = true ∧
    (upsertUser (some { address := ("addr1"), authorised := ("0"), isActive := false })
      ("addr1") {}).isActive = true ∧
    (seedCreateUser ("addr1")).isActive ≠ some false :=
  ⟨c9_isActive_always_true.1 none ("addr1") {},
   c9_isActive_always_true.1 _ ("addr1") {},
   c9_isActive_always_true.2 ("addr1")⟩

/-- The left fold of `max` over a list, seeded with its head, is one of
the folded values. -/
theorem foldlMax_mem : ∀ (vs : List ℤ) (v : ℤ), vs.foldl max v ∈ v :: vs := by
  intro vs
  induction vs with
  | nil => intro v; simp
  | cons a as ih =>
    intro v
    have h := ih (max v a)
    rcases List.mem_cons.mp h with h1 | h1
    · rcases max_choice v a with hc | hc <;>
        simp only [List.foldl_cons] <;> rw [h1, hc] <;> simp
    · simp only [List.foldl_cons]
      exact List.mem_cons_of_mem _ (List.mem_cons_of_mem _ h1)

/-- The left fold of `max` bounds every folded value from above. -/
theorem foldlMax_le : ∀ (vs : List ℤ) (v x : ℤ), x ∈ v :: vs → x ≤ vs.foldl max v := by
  intro vs
  induction vs with
  | nil =>
    intro v x hx
    simp at hx
    simp [hx]
  | cons a as ih =>
    intro v x hx
    simp only [List.foldl_cons]
    rcases List.mem_cons.mp hx with rfl | h1
    · exact le_trans (le_max_left _ _) (ih _ _ (List.mem_cons_self _ _))
    · rcases List.mem_cons.mp h1 with rfl | h2
      · exact le_trans (le_max_right _ _) (ih _ _ (List.mem_cons_self _ _))
      · exact ih (max v a) x (List.mem_cons_of_mem _ h2)

/-- C10: the `lastShare` field stored by the user-stats insert is the
string of the maximum worker `lastshare` (a missing `lastshare` counting
as `0`): an absent `workers` field gives the string `0`, a present but
empty workers mapping gives the string `-Infinity` (JS `Math.max()` of no
arguments), and a nonempty mapping gives the decimal string of the unique
value that occurs among the workers and bounds them all. -/
theorem c10_lastShare_characterization :
    lastShareString none = "0" ∧
    lastShareString (some []) = "-Infinity" ∧
    (∀ (ws : List (String × P2PoolWorker)) (m : ℤ),
      m ∈ ws.map (fun q => workerLastshare q.2) →
      (∀ v ∈ ws.map (fun q => workerLastshare q.2), v ≤ m) →
      lastShareString (some ws) = toString m) := by
  refine ⟨rfl, rfl, ?_⟩
  intro ws m hmem hub
  cases hm : ws.map (fun q => workerLastshare q.2) with
  | nil => rw [hm] at hmem; simp at hmem
  | cons v vs =>
    have hws : ws ≠ [] := by
      intro hc
      rw [hc] at hm
      exact List.noConfusion hm
    cases ws with
    | nil => exact absurd rfl hws
    | cons w wrest =>
      simp only [lastShareString, List.map_cons] at hm hmem hub ⊢
      injection hm with hv hvs
      rw [hv, hvs] at hmem hub ⊢
      have h1 : vs.foldl max v ≤ m := hub _ (foldlMax_mem vs v)
      have h2 : m ≤ vs.foldl max v := foldlMax_le vs v m hmem
      rw [le_antisymm h1 h2]

/-- Witness for C10 on a concrete worker map with `lastshare` values `7`
and (missing, counted as) `0`. -/
theorem c10_lastShare_characterization_witness :
    lastShareString (some exWorkersC10) = toString (7 : ℤ) :=
  c10_lastShare_characterization.2.2 exWorkersC10 7 (by decide) (by decide)

/-- A committed unit of work for one address leaves every other address's
rows untouched. -/
theorem rowsFor_applyUnit (st : DBState) (a : String) (u : P2PoolUser)
    (b : String) (h : b ≠ a) : rowsFor (applyUnit st a u) b = rowsFor st b := by
  have hcount : ∀ l : List String, (l ++ [a]).count b = l.count b := by
    intro l
    rw [List.count_append]
    have h0 : List.count b [a] = 0 := by
      rw [List.count_eq_zero]
      simp [h]
    omega
  have h1 : (if a ∈ st.users then st.users else st.users ++ [a]).count b =
      st.users.count b := by
    by_cases hmem : a ∈ st.users
    · rw [if_pos hmem]
    · rw [if_neg hmem, hcount]
  have hfold : ∀ (names : List String) (ws : List (String × String)),
      (names.foldl (fun ws n => if (a, n) ∈ ws then ws else ws ++ [(a, n)]) ws).filter
          (fun q => q.1 == b) =
        ws.filter (fun q => q.1 == b) := by
    intro names
    induction names with
    | nil => intro ws; rfl
    | cons n ns ih =>
      intro ws
      simp only [List.foldl_cons]
      by_cases hmem : (a, n) ∈ ws
      · rw [if_pos hmem]
        exact ih ws
      · rw [if_neg hmem, ih (ws ++ [(a, n)]), List.filter_append]
        have hone : List.filter (fun q => q.1 == b) [(a, n)] = [] := by
          simp [List.filter_cons, Ne.symm h]
        rw [hone, List.append_nil]
  have hmapnil : ∀ names : List String,
      (names.map (fun n => (a, n))).filter (fun q => q.1 == b) = [] := by
    intro names
    induction names with
    | nil => rfl
    | cons n ns ih =>
      simp only [List.map_cons, List.filter_cons]
      simp [Ne.symm h, ih]
  have h4 : ∀ names : List String,
      (st.workerStats ++ names.map (fun n => (a, n))).filter (fun q => q.1 == b) =
        st.workerStats.filter (fun q => q.1 == b) := by
    intro names
    rw [List.filter_append, hmapnil, List.append_nil]
  simp only [rowsFor, applyUnit]
  rw [h1, hcount, hfold, h4]

/-- A failed transaction leaves the store unchanged, so either way one
address's processing leaves every other address's rows untouched. -/
theorem rowsFor_processAddress (fails : String → Bool) (st : DBState)
    (entry : String × P2PoolUser) (a : String) (h : a ≠ entry.1) :
    rowsFor (processAddress fails st entry).1 a = rowsFor st a := by
  unfold processAddress
  by_cases hf : fails entry.1
  · simp [hf]
  · simp only [hf, Bool.false_eq_true, if_false]
    exact rowsFor_applyUnit st entry.1 entry.2 a h

/-- A whole batch leaves the rows of every address outside it untouched. -/
theorem rowsFor_processBatch (fails : String → Bool) :
    ∀ (batch : List (String × P2PoolUser)) (st : DBState) (a : String),
      a ∉ batch.map Prod.fst →
      rowsFor (processBatch fails st batch).1 a = rowsFor st a := by
  intro batch
  induction batch with
  | nil => intro st a _; rfl
  | cons e rest ih =>
    intro st a ha
    simp only [List.map_cons, List.mem_cons] at ha
    push_neg at ha
    simp only [processBatch]
    rw [ih _ _ ha.2, rowsFor_processAddress fails st e a ha.1]

/-- C3: each address's writes run inside one atomic transaction: when the
transaction fails, the store is returned unchanged (none of the user
upsert, user-stats insert, worker upserts or worker-stats inserts remain)
and the failure is recorded; in every case the processing of one address
leaves any other address's rows exactly as they were, and a whole batch
leaves the rows of every address outside it — in particular the already
committed writes of siblings — untouched. -/
theorem c3_per_address_atomicity :
    (∀ (fails : String → Bool) (st : DBState) (entry : String × P2PoolUser),
      fails entry.1 = true → processAddress fails st entry = (st, some entry.1)) ∧
    (∀ (fails : String → Bool) (st : DBState) (entry : String × P2PoolUser) (a : String),
      a ≠ entry.1 → rowsFor (processAddress fails st entry).1 a = rowsFor st a) ∧
    (∀ (fails : String → Bool) (st : DBState) (batch : List (String × P2PoolUser)) (a : String),
      a ∉ batch.map Prod.fst →
      rowsFor (processBatch fails st batch).1 a = rowsFor st a) := by
  refine ⟨?_, ?_, ?_⟩
  · intro fails st entry h
    simp [processAddress, h]
  · intro fails st entry a h
    exact rowsFor_processAddress fails st entry a h
  · intro fails st batch a h
    exact rowsFor_processBatch fails batch st a h

/-- Witness for C3: with a store already holding address `a2`, the failing
transaction of address `a1` commits nothing and leaves `a2`'s rows as they
were. -/
theorem c3_per_address_atomicity_witness :
    failsA1 ("a1") = true ∧
    processAddress failsA1 exDB (("a1"), {}) = (exDB, some ("a1")) ∧
    rowsFor (processAddress failsA1 exDB (("a1"), {})).1 ("a2") = rowsFor exDB ("a2") :=
  ⟨by decide,
   c3_per_address_atomicity.1 failsA1 exDB (("a1"), {}) (by decide),
   c3_per_address_atomicity.2.1 failsA1 exDB (("a1"), {}) ("a2") (by decide)⟩

/-- C4 evidence (code bug): on the concrete 11-user snapshot, when the
transaction of address `a0` — a member of the first batch — fails, the
rejected `Promise.all` aborts the run before the second batch: the run
does not complete, the failure is recorded for `a0`, the sibling `a1` of
the same batch still committed, but `a10` (the sole member of the second
batch) is never written, contradicting the claim that processing
continues with all remaining batches. -/
theorem c4_failure_aborts_run :
    (runUpdate failsFirst exJson11).2.2 = false ∧
    (runUpdate failsFirst exJson11).2.1 = [("a0")] ∧
    ("a1") ∈ (runUpdate failsFirst exJson11).1.users ∧
    ("a10") ∉ (runUpdate failsFirst exJson11).1.users := by
  refine ⟨by decide, by decide, by decide, by decide⟩

/-- C8 evidence (code bug): `seed()` catches every error internally and
returns normally, so the enclosing IIFE's `process.exit(1)` is
unreachable: the process exits with status `0` on an unreadable snapshot,
on a malformed snapshot, on an unreachable storage backend — indeed on
every input — contradicting the claim of a non-zero exit status on fatal
errors. -/
theorem c8_fatal_errors_exit_zero :
    seedExitCode (Except.error RunError.snapshotUnavailable) true = 0 ∧
    seedExitCode (Except.error RunError.snapshotMalformed) true = 0 ∧
    seedExitCode (Except.ok {}) false = 0 ∧
    (∀ (readRes : Except RunError P2PoolJson) (dbOk : Bool),
      seedExitCode readRes dbOk = 0) := by
  refine ⟨rfl, rfl, rfl, ?_⟩
  intro readRes dbOk
  cases h : seedBody readRes dbOk <;> simp [seedExitCode, seedCatch, h]
